import Mathlib

/-!
Verification of the voice-command pipeline of the AI-Travel-Planner backend,
shallowly embedded from `backend/travel_plans/services/voice_service.py`.

Modelling conventions:
* Python strings are `String` / `List Char`; substring tests (`kw in text`)
  are an explicit scanner over character lists.
* Python `re` patterns used by the code are embedded as hand-rolled scanners
  that reproduce the leftmost-match and greedy-with-backtracking behaviour of
  the concrete patterns appearing in the source (digits are modelled as the
  ASCII digits, which is what every input of interest contains).
* Python floats (`float(...)`, numeric literals such as `0.92`) are modelled
  as exact rationals `ℚ`.
* External collaborators (pydub decoders, the websocket transport, wall-clock
  time) are parameters of the embedded functions; time is discretised into
  ticks of 0.1 s, matching the `time.sleep(0.1)` polling step of the source.
-/

namespace VoiceSpec

/-- Bool-valued test that `p` is a prefix of `l` (character lists). -/
def isPrefixL : List Char → List Char → Bool
  | [], _ => true
  | _ :: _, [] => false
  | a :: as, b :: bs => a == b && isPrefixL as bs

/-- Bool-valued substring occurrence test, embedding Python's `kw in text`. -/
def occursIn (kw : List Char) : List Char → Bool
  | [] => isPrefixL kw []
  | c :: cs => isPrefixL kw (c :: cs) || occursIn kw cs

/-- Substring occurrence on `String`s. -/
def strOccursIn (kw text : String) : Bool := occursIn kw.data text.data

/-- Embeds Python's `str.strip()`: drop leading and trailing whitespace. -/
def stripStr (s : String) : String :=
  ⟨((s.data.dropWhile Char.isWhitespace).reverse.dropWhile Char.isWhitespace).reverse⟩

/-- Value of a list of ASCII digit characters, as Python's `int(...)`. -/
def digitsToNat (ds : List Char) : Nat :=
  ds.foldl (fun n c => 10 * n + (c.toNat - 48)) 0

/-- Greedy maximal run of digits at the front of the list, with the rest. -/
def takeDigits : List Char → List Char × List Char
  | [] => ([], [])
  | c :: cs =>
    if c.isDigit then
      let p := takeDigits cs
      (c :: p.1, p.2)
    else ([], c :: cs)

/-- Embeds `re.search(r'(\d+)X', text)` followed by `int(group(1))` for a
single marker character `X` (the source uses `天` and `元`): the leftmost
position whose maximal digit run is immediately followed by the marker wins
(regex backtracking inside the run can never succeed because the marker is
not a digit). -/
def firstIntBefore (marker : Char) : List Char → Option Nat
  | [] => none
  | c :: cs =>
    if c.isDigit then
      let p := takeDigits (c :: cs)
      match p.2 with
      | m :: _ => if m == marker then some (digitsToNat p.1) else firstIntBefore marker cs
      | [] => firstIntBefore marker cs
    else firstIntBefore marker cs

/-- Value of the decimal literal `ds . fs` as an exact rational, embedding
Python's `float(...)` applied to a match of `\d+(?:\.\d+)?`: the value is
`ds + fs / 10 ^ |fs|`, built here as a single normalized fraction. -/
def decimalToRat (ds fs : List Char) : ℚ :=
  mkRat (digitsToNat ds * 10 ^ fs.length + digitsToNat fs) (10 ^ fs.length)

/-- Greedy parse of `\d+(?:\.\d+)?` at the front of the list (which is only
used when the list starts with a digit): the parsed rational value and the
number of characters consumed by the greedy match. -/
def parseNumber (l : List Char) : ℚ × Nat :=
  let p := takeDigits l
  match p.2 with
  | '.' :: r =>
    let q := takeDigits r
    match q.1 with
    | [] => (decimalToRat p.1 [], p.1.length)
    | _ :: _ => (decimalToRat p.1 q.1, p.1.length + 1 + q.1.length)
  | _ => (decimalToRat p.1 [], p.1.length)

/-- Embeds taking the first match of `re.findall(r'(\d+(?:\.\d+)?)X', text)`
for a marker character `X` (the source uses `元` and `块`): leftmost position
whose greedy maximal number parse is immediately followed by the marker (any
backtracked parse leaves a digit or a dot before the marker, so only the
maximal parse can match). -/
def firstNumBefore (marker : Char) : List Char → Option ℚ
  | [] => none
  | c :: cs =>
    if c.isDigit then
      let p := parseNumber (c :: cs)
      match (c :: cs).drop p.2 with
      | m :: _ => if m == marker then some p.1 else firstNumBefore marker cs
      | [] => firstNumBefore marker cs
    else firstNumBefore marker cs

/-- Embeds taking the first match of `re.findall(lit + r'(\d+(?:\.\d+)?)',
text)` for a literal `lit` (the source uses `花了` and `费用`): leftmost
occurrence of the literal that is immediately followed by a digit, capturing
the greedy number parse after it. -/
def firstNumAfter (lit : List Char) : List Char → Option ℚ
  | [] => none
  | c :: cs =>
    if isPrefixL lit (c :: cs) then
      match (c :: cs).drop lit.length with
      | d :: ds =>
        if d.isDigit then some (parseNumber (d :: ds)).1
        else firstNumAfter lit cs
      | [] => firstNumAfter lit cs
    else firstNumAfter lit cs

/-- Recursion core of `allNumbers`.  Every step consumes at least one
character, so running it with the input length as fuel realizes the scan
as a structural recursion (which the kernel can evaluate). -/
def allNumbersF : Nat → List Char → List ℚ
  | 0, _ => []
  | _ + 1, [] => []
  | fuel + 1, c :: cs =>
    if c.isDigit then
      (parseNumber (c :: cs)).1
        :: allNumbersF fuel (cs.drop ((parseNumber (c :: cs)).2 - 1))
    else allNumbersF fuel cs

/-- Embeds `re.findall(r'(\d+(?:\.\d+)?)', text)`: all non-overlapping greedy
number matches, left to right (scanning resumes after each matched token). -/
def allNumbers (l : List Char) : List ℚ := allNumbersF l.length l

/-- Embeds Python's `max(xs, key=float)` on a non-empty list: keep the first
element, replacing it only by strictly larger later elements. -/
def firstMax : List ℚ → Option ℚ
  | [] => none
  | x :: xs => some (xs.foldl (fun m y => if y > m then y else m) x)

/-- The intents known to `VoiceCommandProcessor`. -/
inductive Intent where
  | create_plan
  | modify_plan
  | add_expense
  | query_plan
  | general
deriving DecidableEq, Repr

/-- The expense categories known to `VoiceCommandProcessor`. -/
inductive Category where
  | food
  | accommodation
  | transportation
  | entertainment
  | shopping
deriving DecidableEq, Repr

/-- The per-intent keyword table of `_classify_intent_rule_based`, in source
order (Python dicts preserve insertion order). -/
def intentKeywords : List (Intent × List String) :=
  [ (.create_plan, ["创建", "制定", "规划", "安排", "计划", "旅游", "旅行", "去"])
  , (.modify_plan, ["修改", "更改", "调整", "变更", "改变"])
  , (.add_expense, ["花费", "费用", "开销", "支出", "消费", "买", "付", "花了", "元"])
  , (.query_plan, ["查看", "显示", "告诉我", "什么时候", "哪里", "怎么"])
  , (.general, ["你好", "谢谢", "再见", "帮助"]) ]

/-- Number of keywords of `kws` occurring in `t`. -/
def countHits (t : List Char) (kws : List String) : Nat :=
  kws.foldl (fun n kw => if occursIn kw.data t then n + 1 else n) 0

/-- The `intent_scores` dict after the first loop of
`_classify_intent_rule_based`: intents with a positive keyword score, in
insertion order. -/
def baseScores (t : List Char) : List (Intent × Nat) :=
  intentKeywords.foldl
    (fun acc p =>
      let s := countHits t p.2
      if s > 0 then acc ++ [(p.1, s)] else acc) []

/-- Embeds `d[k] = d.get(k, 0) + inc` on an insertion-ordered dict. -/
def bump : List (Intent × Nat) → Intent → Nat → List (Intent × Nat)
  | [], i, inc => [(i, inc)]
  | (j, s) :: rest, i, inc =>
    if j = i then (j, s + inc) :: rest else (j, s) :: bump rest i inc

/-- Embeds `max(d, key=d.get)`: the first key holding the maximal score
(later keys replace the current best only when strictly greater). -/
def maxKey : List (Intent × Nat) → Option Intent
  | [] => none
  | p :: rest =>
    some (rest.foldl (fun b q => if q.2 > b.2 then q else b) p).1

/-- Embeds `re.search(r'\d+.*元', text)` as a Bool: some digit is followed,
with no newline in between, by the character `元`. -/
def dotStarYuan : List Char → Bool
  | [] => false
  | c :: cs =>
    if c == '元' then true
    else if c == '\n' then false
    else dotStarYuan cs

/-- Scanner for `re.search(r'\d+.*元', text)`: a digit with a later `元` and
no newline in between. -/
def hasAmountYuan : List Char → Bool
  | [] => false
  | c :: cs => (c.isDigit && dotStarYuan cs) || hasAmountYuan cs

/-- Destination names used by the classifier bonus of
`_classify_intent_rule_based`. -/
def classifierDestinations : List String :=
  ["北京", "上海", "广州", "深圳", "杭州", "成都", "西安", "南京", "日本", "韩国", "泰国"]

/-- Travel verbs used by the classifier bonus. -/
def travelWords : List String := ["旅游", "旅行", "去", "玩"]

/-- Embeds `VoiceCommandProcessor._classify_intent_rule_based`. -/
def classify_intent_rule_based (text : List Char) : Intent :=
  let t := text.map Char.toLower
  let sc0 := baseScores t
  let sc1 := if hasAmountYuan t then bump sc0 .add_expense 3 else sc0
  let sc2 :=
    if (classifierDestinations.any fun d => occursIn d.data t)
        && (travelWords.any fun w => occursIn w.data t) then
      bump sc1 .create_plan 2
    else sc1
  match maxKey sc2 with
  | none => .general
  | some i => i

/-- Destination names used by entity extraction for `create_plan` (a shorter
list than the classifier's). -/
def extractorDestinations : List String :=
  ["北京", "上海", "广州", "深圳", "杭州", "成都", "西安", "南京"]

/-- First destination of the extractor list occurring in the text. -/
def firstDestination (t : List Char) : Option String :=
  (extractorDestinations.find? fun d => occursIn d.data t)

/-- The priority-ordered category keyword table of
`_extract_entities_rule_based`, in source order. -/
def categoryTable : List (String × Category) :=
  [ ("门票", .entertainment), ("景点", .entertainment), ("游乐", .entertainment)
  , ("玩", .entertainment), ("博物馆", .entertainment), ("公园", .entertainment)
  , ("演出", .entertainment), ("电影", .entertainment)
  , ("吃", .food), ("餐", .food), ("饭", .food), ("喝", .food), ("茶", .food)
  , ("咖啡", .food), ("早餐", .food), ("午餐", .food), ("晚餐", .food)
  , ("夜宵", .food), ("小吃", .food)
  , ("住", .accommodation), ("酒店", .accommodation), ("宾馆", .accommodation)
  , ("民宿", .accommodation), ("旅店", .accommodation), ("客栈", .accommodation)
  , ("车", .transportation), ("地铁", .transportation), ("公交", .transportation)
  , ("出租", .transportation), ("火车", .transportation), ("飞机", .transportation)
  , ("船", .transportation), ("票", .transportation)
  , ("买", .shopping), ("购", .shopping), ("商店", .shopping), ("超市", .shopping)
  , ("纪念品", .shopping), ("礼品", .shopping) ]

/-- First category whose keyword occurs in the text (first keyword hit wins,
as in the `for keyword, category in categories.items()` loop with `break`). -/
def categoryFromKeywords (t : List Char) : Option Category :=
  match categoryTable.find? fun p => occursIn p.1.data t with
  | some p => some p.2
  | none => none

/-- The ordered amount patterns of `_extract_entities_rule_based`, each as a
first-match scanner: digits+`元`, `花了`+digits, `费用`+digits, digits+`块`. -/
def amountPatterns : List (List Char → Option ℚ) :=
  [ firstNumBefore '元'
  , firstNumAfter "花了".data
  , firstNumAfter "费用".data
  , firstNumBefore '块' ]

/-- Amount entity of `_extract_entities_rule_based` for `add_expense`: the
first match of the earliest matching pattern, falling back to the largest
bare number in the text. -/
def extractAmount (t : List Char) : Option ℚ :=
  match amountPatterns.findSome? fun p => p t with
  | some a => some a
  | none => firstMax (allNumbers t)

/-- Threshold-based category inference used when no keyword hits but an
amount exists (`>500 → accommodation, >100 → entertainment, else food`). -/
def categoryFromAmount (a : ℚ) : Category :=
  if a > 500 then .accommodation
  else if a > 100 then .entertainment
  else .food

/-- Category entity of `_extract_entities_rule_based` for `add_expense`. -/
def extractCategory (t : List Char) (amount : Option ℚ) : Option Category :=
  match categoryFromKeywords t with
  | some c => some c
  | none =>
    match amount with
    | some a => some (categoryFromAmount a)
    | none => none

/-- Entity map produced by `_extract_entities_rule_based` (all fields are
optional; absent keys of the Python dict are `none`). -/
structure Entities where
  destination : Option String := none
  days : Option Nat := none
  budget : Option Nat := none
  amount : Option ℚ := none
  category : Option Category := none
deriving DecidableEq, Repr

/-- Embeds `VoiceCommandProcessor._extract_entities_rule_based`. -/
def extract_entities_rule_based (text : List Char) (intent : Intent) : Entities :=
  match intent with
  | .create_plan =>
    { destination := firstDestination text
      days := firstIntBefore '天' text
      budget := firstIntBefore '元' text }
  | .add_expense =>
    let amount := extractAmount text
    { amount := amount
      category := extractCategory text amount }
  | _ => {}

/-- Classification plus extraction, as `_fallback_rule_based_processing`
composes them (the rule-based path of `process_command`). -/
def rule_based_processing (text : List Char) : Intent × Entities :=
  let i := classify_intent_rule_based text
  (i, extract_entities_rule_based text i)

/-- One protocol frame as produced by the send loop of
`VoiceRecognitionService._on_open` (status 0 = first, 1 = continue,
2 = last, matching `STATUS_FIRST_FRAME` / `STATUS_CONTINUE_FRAME` /
`STATUS_LAST_FRAME`); the payload is the byte slice the frame carries. -/
structure Frame where
  status : Nat
  payload : List Nat
deriving DecidableEq, Repr

/-- The `while audio_offset < len(audio_data)` loop of `_on_open`: each
iteration slices off up to 1280 bytes and sends it as a first/continue
frame; in the iteration that exhausts the buffer an additional frame with
status 2 and the same slice is sent and the loop breaks.  (The
`if not buf` branch of the source is unreachable: inside the loop the
slice is never empty.) -/
def sendLoopF : Nat → Bool → List Nat → List Frame
  | 0, _, _ => []
  | _ + 1, _, [] => []
  | fuel + 1, isFirst, c :: cs =>
    if (cs.drop 1279).isEmpty then
      [⟨if isFirst then 0 else 1, c :: cs.take 1279⟩, ⟨2, c :: cs.take 1279⟩]
    else ⟨if isFirst then 0 else 1, c :: cs.take 1279⟩
        :: sendLoopF fuel false (cs.drop 1279)

/-- The send loop of `_on_open`; every iteration consumes at least one
byte, so the input length is enough fuel for `sendLoopF` to realize the
whole loop. -/
def sendLoop (isFirst : Bool) (l : List Nat) : List Frame :=
  sendLoopF l.length isFirst l

/-- All frames sent by `_on_open` for a PCM buffer. -/
def on_open_frames (audio : List Nat) : List Frame := sendLoop true audio

/-- Recursion core of `chunks`, with explicit fuel. -/
def chunksF : Nat → List Nat → List (List Nat)
  | 0, _ => []
  | _ + 1, [] => []
  | fuel + 1, c :: cs => (c :: cs.take 1279) :: chunksF fuel (cs.drop 1279)

/-- The successive 1280-byte slices of a buffer (specification-side view of
the loop's chunking). -/
def chunks (l : List Nat) : List (List Nat) := chunksF l.length l

/-- Tags a list of slices with first/continue statuses: the head gets
status 0 when `isFirst`, every later slice gets status 1. -/
def tagStatuses : Bool → List (List Nat) → List Frame
  | _, [] => []
  | isFirst, x :: xs => ⟨if isFirst then 0 else 1, x⟩ :: tagStatuses false xs

/-- Session state of `VoiceRecognitionService` as mutated by the websocket
callbacks (`recognition_result`, `recognition_complete`,
`recognition_error`), plus the channel's closed flag (`ws.close()`). -/
structure Session where
  result : String
  complete : Bool
  error : Option String
  closed : Bool
deriving DecidableEq, Repr

/-- The state `__init__` sets up. -/
def initSession : Session := ⟨"", false, none, false⟩

/-- One received websocket message, after the JSON envelope has been read:
either a well-formed frame (header code and status, and the optional
decoded `payload.result.text` word-segment structure `ws`/`cw`/`w`), or a
message on which the parsing/decoding in `_on_message` raises (carrying
the exception text). -/
inductive WsMsg where
  | frame (code : Int) (status : Int) (payload : Option (List (List String)))
  | malformed (e : String)

/-- The flattening loop of `_on_message`: concatenate every word `w` of
every `cw` group of every `ws` segment, in order. -/
def flattenWs (ws : List (List String)) : String :=
  ws.foldl (fun acc cw => cw.foldl (fun a w => a ++ w) acc) ""

/-- Embeds `VoiceRecognitionService._on_message` as a state transition. -/
def on_message (s : Session) (m : WsMsg) : Session :=
  match m with
  | .malformed e => { s with error := some e, closed := true }
  | .frame code status payload =>
    if code ≠ 0 then
      { s with error := some ("请求错误：" ++ toString code), closed := true }
    else
      let s1 :=
        match payload with
        | some ws => { s with result := s.result ++ flattenWs ws }
        | none => s
      if status = 2 then { s1 with complete := true, closed := true } else s1

/-- Delivery of one message through the websocket channel: after
`ws.close()` the channel driver invokes no further callbacks, so a message
arriving at a closed channel leaves the session untouched. -/
def deliver (s : Session) (m : WsMsg) : Session :=
  if s.closed then s else on_message s m

/-- Delivery of a whole sequence of messages, in arrival order. -/
def runMsgs (s : Session) (ms : List WsMsg) : Session := ms.foldl deliver s

/-- The recognition fields of the session as read by the polling loop of
`transcribe_audio` (without the channel flag). -/
structure RecState where
  result : String
  complete : Bool
  error : Option String
deriving DecidableEq, Repr

/-- The state after the reset in `transcribe_audio` (lines resetting
`recognition_result`, `recognition_complete`, `recognition_error`). -/
def resetState : RecState := ⟨"", false, none⟩

/-- Abstraction of the recognition channel as seen by the polling loop:
the callbacks either never set the session fields (`fireAt = none`) or
have set them to `final` from tick `k` on (`fireAt = some k`, ticks of
0.1 s matching the loop's `time.sleep(0.1)`). -/
structure Channel where
  fireAt : Option Nat
  final : RecState
deriving DecidableEq, Repr

/-- The session fields the polling loop observes at tick `t`. -/
def sessionAt (ch : Channel) (t : Nat) : RecState :=
  match ch.fireAt with
  | none => resetState
  | some k => if k ≤ t then ch.final else resetState

/-- Result dictionary of `transcribe_audio`: either
`{'success': True, 'text': …, 'confidence': …, 'duration': …}` or
`{'success': False, 'error': …}`. -/
inductive TResult where
  | success (text : String) (confidence : ℚ) (duration : ℚ)
  | failure (error : String)
deriving DecidableEq, Repr

/-- The `while not complete and not error` polling loop of
`transcribe_audio`, with its 30 s bound: tick `t` counts 0.1 s sleeps, so
`time.time() - start_time > timeout` is `t > 300`; the loop returns the
timeout failure inside the loop, and after the loop returns the error
failure (checked first) or the success dictionary with the hard-coded
confidence `0.92` and duration `len(audio_data) / 32000`.  `fuel` bounds
the number of modelled iterations; `none` means the model ran out of
fuel before the loop returned. -/
def waitLoop (ch : Channel) (audioLen : Nat) : Nat → Nat → Option (TResult × RecState)
  | _, 0 => none
  | t, fuel + 1 =>
    if !(sessionAt ch t).complete && (sessionAt ch t).error.isNone then
      if t > 300 then some (.failure "语音识别超时，请重试", sessionAt ch t)
      else waitLoop ch audioLen (t + 1) fuel
    else
      match (sessionAt ch t).error with
      | some e => some (.failure ("语音识别失败: " ++ e), sessionAt ch t)
      | none =>
        some (.success (stripStr (sessionAt ch t).result) (mkRat 92 100)
          (mkRat audioLen 32000), sessionAt ch t)

/-- Embeds `VoiceRecognitionService.transcribe_audio`.  The credentials are
strings (Python `None` and `''` are both falsy and modelled as `""`); `s0`
is the session state before the call; `conv` is the audio conversion
(`_convert_audio_to_pcm`, which may raise); `ch` abstracts the websocket
session.  On the happy path the session is reset and the polling loop
runs; on the two early failure paths the session fields are not touched. -/
def transcribe_audio (app_id api_key api_secret : String) (s0 : RecState)
    (audio : List Nat) (conv : List Nat → Except String (List Nat))
    (ch : Channel) (fuel : Nat) : Option (TResult × RecState) :=
  if api_key = "" ∨ api_secret = "" ∨ app_id = "" then
    some (.failure "语音识别服务未配置，请在设置中配置科大讯飞API密钥", s0)
  else
    match conv audio with
    | .error e => some (.failure ("语音识别失败: " ++ e), s0)
    | .ok _ => waitLoop ch audio.length 0 fuel

/-- Embeds `AudioFileManager.validate_audio_format`: inputs shorter than
44 bytes (the minimal WAV header) are invalid; otherwise a RIFF/WAVE
header — or, for now, anything else — is accepted. -/
def validate_audio_format (audio : List Nat) : Bool :=
  if audio.length < 44 then false
  else if audio.take 4 == [0x52, 0x49, 0x46, 0x46]
      && ((audio.drop 8).take 4 == [0x57, 0x41, 0x56, 0x45]) then true
  else true

/-- Embeds `VoiceRecognitionService._convert_audio_to_pcm`.  The pydub
decoders are external collaborators: `formatDecoders` is the fixed ordered
candidate list (webm, wav, mp3, ogg, mp4) and `auto` the best-effort
auto-detection, each returning the normalized 16 kHz/16-bit/mono PCM bytes
or `none` on decode failure.  When everything fails the source raises
`ValueError("无法识别音频格式")`, re-wrapped by the outer handler into
`音频格式转换失败: …`. -/
def convert_audio_to_pcm (formatDecoders : List (List Nat → Option (List Nat)))
    (auto : List Nat → Option (List Nat)) (audio : List Nat) :
    Except String (List Nat) :=
  match formatDecoders.findSome? fun d => d audio with
  | some pcm => .ok pcm
  | none =>
    match auto audio with
    | some pcm => .ok pcm
    | none => .error "音频格式转换失败: 无法识别音频格式"

/-! Theorems. -/

/-- C1 (counterexample): on the spec's second example vector
"我想去北京玩3天，预算2000元" the declared scoring rule itself gives
`add_expense` one keyword hit (`元`) plus the +3 number-with-currency bonus
= 4, while `create_plan` gets one keyword hit (`去`) plus the +2
destination-with-travel-verb bonus = 3, so the classifier returns
`add_expense`, not `create_plan` as the claim states. -/
theorem intent_second_vector_cex :
    classify_intent_rule_based "我想去北京玩3天，预算2000元".data = .add_expense ∧
    Intent.add_expense ≠ .create_plan := by
  decide

/-- C1 (amended): the first example vector holds exactly as specified —
intent `add_expense`, amount 60, category `food`.  On the second vector the
rule-based pipeline returns intent `add_expense` (score 4 against 3 for
`create_plan`) and extracts amount 2000 with category `entertainment`;
the `create_plan` entities (destination `北京`, days 3, budget 2000) are
not produced because extraction follows the winning intent. -/
theorem voice_command_vectors :
    rule_based_processing "我花了60元吃饭".data
      = (.add_expense, { amount := some 60, category := some .food }) ∧
    rule_based_processing "我想去北京玩3天，预算2000元".data
      = (.add_expense, { amount := some 2000, category := some .entertainment }) := by
  decide

/-- C7: any `add_expense` description containing the keyword `门票` (whether
or not it also contains `车`) gets category `entertainment`: `门票` is the
first entry of the priority-ordered table, so the first-hit-wins scan never
reaches the transportation keywords. -/
theorem category_priority (t : List Char)
    (h1 : occursIn "门票".data t = true) (_h2 : occursIn "车".data t = true) :
    (extract_entities_rule_based t .add_expense).category = some .entertainment ∧
    Category.entertainment ≠ .transportation := by
  refine ⟨?_, by decide⟩
  have hfind : categoryFromKeywords t = some .entertainment := by
    unfold categoryFromKeywords categoryTable
    rw [List.find?_cons]
    simp [h1]
  simp [extract_entities_rule_based, extractCategory, hfind]

/-- Witness for `category_priority` at the concrete description `门票和车`. -/
theorem category_priority_w :
    (extract_entities_rule_based "门票和车".data .add_expense).category
        = some .entertainment ∧
    Category.entertainment ≠ .transportation :=
  category_priority "门票和车".data (by decide) (by decide)

/-- C9: when no category keyword occurs in an `add_expense` description,
the category is inferred purely from the extracted amount — above 500
`accommodation`, above 100 `entertainment`, otherwise `food` — and when
additionally no amount was extracted, no category entity is produced. -/
theorem category_inference (t : List Char) (h : categoryFromKeywords t = none) :
    (∀ a : ℚ, extractAmount t = some a →
      (extract_entities_rule_based t .add_expense).category
        = some (if a > 500 then Category.accommodation
                else if a > 100 then Category.entertainment else Category.food)) ∧
    (extractAmount t = none →
      (extract_entities_rule_based t .add_expense).category = none) := by
  constructor
  · intro a ha
    simp [extract_entities_rule_based, extractCategory, h, ha, categoryFromAmount]
  · intro ha
    simp [extract_entities_rule_based, extractCategory, h, ha]

/-- Witness for `category_inference` at the concrete description
`支出600元` (no category keyword, amount 600 → accommodation). -/
theorem category_inference_w :
    (extract_entities_rule_based "支出600元".data .add_expense).category
      = some (if (600 : ℚ) > 500 then Category.accommodation
              else if (600 : ℚ) > 100 then Category.entertainment else Category.food) :=
  (category_inference "支出600元".data (by decide)).1 600 (by decide)

/-- The fold through which Python's `max` runs returns an element of the
list it folds over. -/
theorem foldlMax_mem (x : ℚ) (xs : List ℚ) :
    xs.foldl (fun m y => if y > m then y else m) x ∈ x :: xs := by
  induction xs generalizing x with
  | nil => exact List.mem_cons_self x []
  | cons y ys ih =>
    simp only [List.foldl_cons]
    rcases List.mem_cons.mp (ih (if y > x then y else x)) with h1 | h1
    · rw [h1]
      by_cases hxy : y > x
      · simp [hxy]
      · simp [hxy]
    · exact List.mem_cons_of_mem x (List.mem_cons_of_mem y h1)

/-- The fold through which Python's `max` runs is an upper bound of the
list it folds over. -/
theorem foldlMax_ge (x : ℚ) (xs : List ℚ) :
    ∀ r ∈ x :: xs, r ≤ xs.foldl (fun m y => if y > m then y else m) x := by
  induction xs generalizing x with
  | nil =>
    intro r hr
    rcases List.mem_cons.mp hr with h | h
    · exact h.le
    · exact absurd h (List.not_mem_nil r)
  | cons y ys ih =>
    intro r hr
    simp only [List.foldl_cons]
    have hx : x ≤ if y > x then y else x := by
      split
      · next hxy => exact le_of_lt hxy
      · exact le_rfl
    have hy : y ≤ if y > x then y else x := by
      split
      · exact le_rfl
      · next hxy => exact le_of_not_lt hxy
    rcases List.mem_cons.mp hr with h | h
    · subst h
      exact le_trans hx (ih _ _ (List.mem_cons_self _ _))
    · rcases List.mem_cons.mp h with h2 | h2
      · subst h2
        exact le_trans hy (ih _ _ (List.mem_cons_self _ _))
      · exact ih _ r (List.mem_cons_of_mem _ h2)

/-- C8: the amount entity for `add_expense` follows the ordered pattern
list — the first match of the earliest matching pattern wins — and when
none of the four patterns (digits+元, 花了+digits, 费用+digits, digits+块)
matches but the text contains bare numbers, the amount is the numerically
largest bare number of the text. -/
theorem amount_fallback_spec (t : List Char) :
    (∀ q : ℚ, firstNumBefore '元' t = some q → extractAmount t = some q) ∧
    (firstNumBefore '元' t = none → ∀ q : ℚ,
      firstNumAfter "花了".data t = some q → extractAmount t = some q) ∧
    (firstNumBefore '元' t = none → firstNumAfter "花了".data t = none → ∀ q : ℚ,
      firstNumAfter "费用".data t = some q → extractAmount t = some q) ∧
    (firstNumBefore '元' t = none → firstNumAfter "花了".data t = none →
      firstNumAfter "费用".data t = none → ∀ q : ℚ,
      firstNumBefore '块' t = some q → extractAmount t = some q) ∧
    (firstNumBefore '元' t = none → firstNumAfter "花了".data t = none →
      firstNumAfter "费用".data t = none → firstNumBefore '块' t = none →
      allNumbers t ≠ [] →
      ∃ q : ℚ, extractAmount t = some q ∧ q ∈ allNumbers t ∧
        ∀ r ∈ allNumbers t, r ≤ q) := by
  refine ⟨?_, ?_, ?_, ?_, ?_⟩
  · intro q h
    simp [extractAmount, amountPatterns, List.findSome?_cons, h]
  · intro h1 q h
    simp [extractAmount, amountPatterns, List.findSome?_cons, h1, h]
  · intro h1 h2 q h
    simp [extractAmount, amountPatterns, List.findSome?_cons, h1, h2, h]
  · intro h1 h2 h3 q h
    simp [extractAmount, amountPatterns, List.findSome?_cons, h1, h2, h3, h]
  · intro h1 h2 h3 h4 h5
    have he : extractAmount t = firstMax (allNumbers t) := by
      simp [extractAmount, amountPatterns, List.findSome?_cons, h1, h2, h3, h4]
    rcases hn : allNumbers t with _ | ⟨a, as⟩
    · exact absurd hn h5
    · refine ⟨as.foldl (fun m y => if y > m then y else m) a, ?_, ?_, ?_⟩
      · rw [he, hn]
        rfl
      · exact foldlMax_mem a as
      · exact foldlMax_ge a as

/-- Witness for `amount_fallback_spec` at the concrete description
`今天逛了25和300` (no amount pattern matches; bare numbers 25 and 300,
and the extracted amount is their maximum). -/
theorem amount_fallback_spec_w :
    ∃ q : ℚ, extractAmount "今天逛了25和300".data = some q ∧
      q ∈ allNumbers "今天逛了25和300".data ∧
      ∀ r ∈ allNumbers "今天逛了25和300".data, r ≤ q :=
  (amount_fallback_spec "今天逛了25和300".data).2.2.2.2 rfl rfl rfl rfl (by decide)

/-- The chunk scan is insensitive to the exact fuel, as long as the fuel
covers the input length. -/
theorem chunksF_irrel : ∀ (f g : Nat) (l : List Nat), l.length ≤ f → l.length ≤ g →
    chunksF f l = chunksF g l := by
  intro f
  induction f with
  | zero =>
    intro g l hf hg
    cases l with
    | nil => cases g <;> rfl
    | cons c cs => simp at hf
  | succ n ih =>
    intro g l hf hg
    cases l with
    | nil => cases g <;> rfl
    | cons c cs =>
      cases g with
      | zero => simp at hg
      | succ m =>
        simp only [chunksF]
        rw [ih m (cs.drop 1279)
          (by simp only [List.length_drop]; simp only [List.length_cons] at hf; omega)
          (by simp only [List.length_drop]; simp only [List.length_cons] at hg; omega)]

/-- Unfolding equation of `chunks` on a nonempty buffer. -/
theorem chunks_cons (c : Nat) (cs : List Nat) :
    chunks (c :: cs) = (c :: cs.take 1279) :: chunks (cs.drop 1279) := by
  unfold chunks
  simp only [List.length_cons, chunksF]
  rw [chunksF_irrel cs.length (cs.drop 1279).length (cs.drop 1279)
    (by simp only [List.length_drop]; omega) le_rfl]

/-- A nonempty buffer has a nonempty chunk list. -/
theorem chunks_ne_nil {l : List Nat} (h : l ≠ []) : chunks l ≠ [] := by
  cases l with
  | nil => exact absurd rfl h
  | cons c cs =>
    rw [chunks_cons]
    exact List.cons_ne_nil _ _

/-- The chunks concatenate back to the buffer (fuel version). -/
theorem chunksF_flatten : ∀ (fuel : Nat) (l : List Nat), l.length ≤ fuel →
    (chunksF fuel l).flatten = l := by
  intro fuel
  induction fuel with
  | zero =>
    intro l hl
    cases l with
    | nil => rfl
    | cons c cs => simp at hl
  | succ n ih =>
    intro l hl
    cases l with
    | nil => rfl
    | cons c cs =>
      simp only [chunksF, List.flatten_cons]
      rw [ih (cs.drop 1279)
        (by simp only [List.length_drop]; simp only [List.length_cons] at hl; omega)]
      simp [List.take_append_drop]

/-- The chunks concatenate back to the buffer. -/
theorem chunks_flatten (l : List Nat) : (chunks l).flatten = l :=
  chunksF_flatten l.length l le_rfl

/-- There are `⌈L/1280⌉` chunks (fuel version). -/
theorem chunksF_length : ∀ (fuel : Nat) (l : List Nat), l.length ≤ fuel →
    (chunksF fuel l).length = (l.length + 1279) / 1280 := by
  intro fuel
  induction fuel with
  | zero =>
    intro l hl
    cases l with
    | nil => rfl
    | cons c cs => simp at hl
  | succ n ih =>
    intro l hl
    cases l with
    | nil => rfl
    | cons c cs =>
      simp only [chunksF, List.length_cons]
      rw [ih (cs.drop 1279)
        (by simp only [List.length_drop]; simp only [List.length_cons] at hl; omega)]
      simp only [List.length_drop]
      omega

/-- There are `⌈L/1280⌉` chunks. -/
theorem chunks_length (l : List Nat) : (chunks l).length = (l.length + 1279) / 1280 :=
  chunksF_length l.length l le_rfl

/-- Tagging preserves the number of slices. -/
theorem tagStatuses_length (b : Bool) (cs : List (List Nat)) :
    (tagStatuses b cs).length = cs.length := by
  induction cs generalizing b with
  | nil => rfl
  | cons x xs ih => simp [tagStatuses, ih]

/-- Tagging preserves the payloads. -/
theorem tagStatuses_payloads (b : Bool) (cs : List (List Nat)) :
    (tagStatuses b cs).map Frame.payload = cs := by
  induction cs generalizing b with
  | nil => rfl
  | cons x xs ih => simp [tagStatuses, ih]

/-- Every tagged frame has a non-final status. -/
theorem tagStatuses_filter (b : Bool) (cs : List (List Nat)) :
    (tagStatuses b cs).filter (fun f => f.status != 2) = tagStatuses b cs := by
  induction cs generalizing b with
  | nil => rfl
  | cons x xs ih => cases b <;> simp [tagStatuses, List.filter_cons, ih]

/-- On a nonempty list `getLastD` ignores its default. -/
theorem getLastD_irrel {α : Type} {l : List α} (h : l ≠ []) (d e : α) :
    l.getLastD d = l.getLastD e := by
  cases l with
  | nil => exact absurd rfl h
  | cons a as => rw [List.getLastD_cons, List.getLastD_cons]

/-- Characterization of the send loop, by induction on the fuel. -/
theorem sendLoopF_eq :
    ∀ (fuel : Nat) (b : Bool) (l : List Nat), l.length ≤ fuel → l ≠ [] →
      sendLoopF fuel b l = tagStatuses b (chunks l) ++ [⟨2, (chunks l).getLastD []⟩] := by
  intro fuel
  induction fuel with
  | zero =>
    intro b l hl hne
    cases l with
    | nil => exact absurd rfl hne
    | cons c cs => simp at hl
  | succ n ih =>
    intro b l hl hne
    cases l with
    | nil => exact absurd rfl hne
    | cons c cs =>
      rw [chunks_cons]
      cases hr : (cs.drop 1279).isEmpty with
      | true =>
        have hrest : cs.drop 1279 = [] := by
          cases hd : cs.drop 1279 with
          | nil => rfl
          | cons a as =>
            rw [hd] at hr
            simp at hr
        simp [sendLoopF, hr, hrest, chunks, chunksF, tagStatuses]
      | false =>
        have hrest : cs.drop 1279 ≠ [] := by
          intro hh
          rw [hh] at hr
          simp at hr
        have hlen : (cs.drop 1279).length ≤ n := by
          simp only [List.length_drop]
          simp only [List.length_cons] at hl
          omega
        have hIH := ih false (cs.drop 1279) hlen hrest
        have hgl : (chunks (cs.drop 1279)).getLastD (c :: cs.take 1279)
            = (chunks (cs.drop 1279)).getLastD [] :=
          getLastD_irrel (chunks_ne_nil hrest) _ _
        simp only [sendLoopF, hr, Bool.false_eq_true, if_false, hIH,
          tagStatuses, List.getLastD_cons, hgl, List.cons_append]

/-- Characterization of the send loop for a nonempty buffer. -/
theorem sendLoop_eq (b : Bool) (l : List Nat) (h : l ≠ []) :
    sendLoop b l = tagStatuses b (chunks l) ++ [⟨2, (chunks l).getLastD []⟩] :=
  sendLoopF_eq l.length b l le_rfl h

/-- C2 (counterexample): for the one-byte buffer `[7]` the loop emits a
first frame carrying `[7]` and then a last frame carrying `[7]` again, so
there is 1 non-final frame where the claim demands `floor(1/1280) = 0`
of them, and the single buffer byte is sent twice rather than exactly
once. -/
theorem frame_loop_floor_cex :
    on_open_frames [7] = [⟨0, [7]⟩, ⟨2, [7]⟩] ∧
    ((on_open_frames [7]).filter fun f => f.status != 2).length
      ≠ ([7] : List Nat).length / 1280 ∧
    ((on_open_frames [7]).map Frame.payload).flatten = [7, 7] := by
  decide

/-- C2 (amended): for every nonempty PCM buffer the loop emits
`⌈L/1280⌉ = (L+1279)/1280` non-final frames (the first with status 0, the
rest with status 1) whose payloads concatenate to the whole buffer in
order, followed by exactly one final frame (status 2) that carries the
same slice as the last non-final frame over again — the final frame
repeats the trailing chunk instead of carrying the (possibly empty)
`L mod 1280` remainder, so the bytes of the last slice are sent twice. -/
theorem frame_loop_spec (audio : List Nat) (h : audio ≠ []) :
    on_open_frames audio
        = tagStatuses true (chunks audio) ++ [⟨2, (chunks audio).getLastD []⟩] ∧
    ((on_open_frames audio).filter fun f => f.status != 2)
        = tagStatuses true (chunks audio) ∧
    ((on_open_frames audio).filter fun f => f.status != 2).length
        = (audio.length + 1279) / 1280 ∧
    (((on_open_frames audio).filter fun f => f.status != 2).map Frame.payload).flatten
        = audio := by
  have he : on_open_frames audio
      = tagStatuses true (chunks audio) ++ [⟨2, (chunks audio).getLastD []⟩] :=
    sendLoop_eq true audio h
  have hf : ((on_open_frames audio).filter fun f => f.status != 2)
      = tagStatuses true (chunks audio) := by
    rw [he, List.filter_append, tagStatuses_filter]
    simp
  refine ⟨he, hf, ?_, ?_⟩
  · rw [hf, tagStatuses_length, chunks_length]
  · rw [hf, tagStatuses_payloads, chunks_flatten]

/-- Witness for `frame_loop_spec` at the one-byte buffer `[3]`. -/
theorem frame_loop_spec_w :
    on_open_frames [3]
        = tagStatuses true (chunks [3]) ++ [⟨2, (chunks [3]).getLastD []⟩] ∧
    ((on_open_frames [3]).filter fun f => f.status != 2)
        = tagStatuses true (chunks [3]) ∧
    ((on_open_frames [3]).filter fun f => f.status != 2).length
        = (([3] : List Nat).length + 1279) / 1280 ∧
    (((on_open_frames [3]).filter fun f => f.status != 2).map Frame.payload).flatten
        = [3] :=
  frame_loop_spec [3] (by decide)

/-- A closed channel swallows every message. -/
theorem deliver_of_closed {s : Session} (h : s.closed = true) (m : WsMsg) :
    deliver s m = s := by
  simp [deliver, h]

/-- A closed channel swallows every message sequence. -/
theorem runMsgs_of_closed {s : Session} (h : s.closed = true) (ms : List WsMsg) :
    runMsgs s ms = s := by
  induction ms with
  | nil => rfl
  | cons m ms ih =>
    show List.foldl deliver (deliver s m) ms = s
    rw [deliver_of_closed h]
    exact ih

/-- One delivery preserves the invariant that a terminal session (complete
or errored) has a closed channel: every branch of `_on_message` that sets
`recognition_complete` or `recognition_error` also calls `ws.close()`. -/
theorem deliver_preserves_inv {s : Session}
    (hs : (s.complete = true ∨ s.error ≠ none) → s.closed = true) (m : WsMsg) :
    ((deliver s m).complete = true ∨ (deliver s m).error ≠ none) →
      (deliver s m).closed = true := by
  cases hc : s.closed with
  | true =>
    rw [deliver_of_closed hc]
    exact hs
  | false =>
    have hcf : s.complete = false := by
      cases hcc : s.complete with
      | false => rfl
      | true => rw [hs (Or.inl hcc)] at hc; exact absurd hc (by simp)
    have hen : s.error = none := by
      cases hee : s.error with
      | none => rfl
      | some e =>
        rw [hs (Or.inr (by rw [hee]; exact Option.some_ne_none e))] at hc
        exact absurd hc (by simp)
    cases m with
    | malformed e => simp [deliver, hc, on_message]
    | frame code status payload =>
      rcases payload with _ | ws <;>
        by_cases hcode : code = 0 <;>
        by_cases hst : status = 2 <;>
        simp [deliver, hc, on_message, hcode, hst, hcf, hen]

/-- Along any delivered message sequence a terminal session has a closed
channel. -/
theorem runMsgs_inv (ms : List WsMsg) :
    ((runMsgs initSession ms).complete = true ∨ (runMsgs initSession ms).error ≠ none) →
    (runMsgs initSession ms).closed = true := by
  suffices h : ∀ (s : Session), ((s.complete = true ∨ s.error ≠ none) → s.closed = true) →
      ((runMsgs s ms).complete = true ∨ (runMsgs s ms).error ≠ none) →
      (runMsgs s ms).closed = true by
    refine h initSession ?_
    intro h'
    rcases h' with h' | h' <;> simp [initSession] at h'
  induction ms with
  | nil =>
    intro s hs
    exact hs
  | cons m ms ih =>
    intro s hs
    show ((runMsgs (deliver s m) ms).complete = true ∨ _) → _
    exact ih (deliver s m) (deliver_preserves_inv hs m)

/-- C3: once a session run from the initial state has reached a terminal
state (complete flag set or error set), delivering any further messages
changes nothing — neither the accumulated transcript nor the flags — since
every flag-setting branch of the receive handler also closes the channel
and a closed channel delivers no further message to the handler. -/
theorem session_terminal_stable (a b : List WsMsg)
    (h : (runMsgs initSession a).complete = true ∨ (runMsgs initSession a).error ≠ none) :
    runMsgs initSession (a ++ b) = runMsgs initSession a := by
  have hc := runMsgs_inv a h
  show List.foldl deliver initSession (a ++ b) = _
  rw [List.foldl_append]
  exact runMsgs_of_closed hc b

/-- Witness for `session_terminal_stable`: a completing message followed by
a further text-bearing message that is not absorbed. -/
theorem session_terminal_stable_w :
    runMsgs initSession
        ([WsMsg.frame 0 2 (some [["你"], ["好"]])] ++ [WsMsg.frame 0 1 (some [["再"]])])
      = runMsgs initSession [WsMsg.frame 0 2 (some [["你"], ["好"]])] :=
  session_terminal_stable _ _ (Or.inl rfl)

/-- In the silent-channel scenario the polling loop of `transcribe_audio`
returns the timeout failure at the first tick past the 30 s bound. -/
theorem waitLoop_silent (ch : Channel) (hch : ch.fireAt = none) (len : Nat) :
    ∀ (fuel t : Nat), 302 ≤ t + fuel → t ≤ 301 →
      waitLoop ch len t fuel = some (.failure "语音识别超时，请重试", resetState) := by
  intro fuel
  induction fuel with
  | zero =>
    intro t h1 h2
    omega
  | succ n ih =>
    intro t h1 h2
    have hs : sessionAt ch t = resetState := by simp [sessionAt, hch]
    simp only [waitLoop, hs]
    by_cases ht : t > 300
    · simp [resetState, ht]
    · simp only [resetState, Bool.not_false, Option.isNone_none, Bool.and_self, if_true,
        if_neg ht]
      exact ih (t + 1) (by omega) (by omega)

/-- Two strings with different fifth characters differ (used to separate
the timeout message from the wrapped protocol-error messages). -/
theorem timeout_msg_ne_wrap (e : String) :
    ("语音识别超时，请重试" : String) ≠ "语音识别失败: " ++ e := by
  intro h
  have h1 : ("语音识别超时，请重试" : String).data.take 5
      = ("语音识别失败: " ++ e).data.take 5 := by rw [h]
  rw [String.data_append] at h1
  have hle : (5 : Nat) ≤ ("语音识别失败: " : String).data.length := by decide
  rw [List.take_append_of_le_length hle] at h1
  exact absurd h1 (by decide)

/-- C4: with configured credentials, convertible audio and a channel that
never sets the completion or error flag, `transcribe_audio` returns — once
the 30 s bound has elapsed — the timeout failure, which differs from every
wrapped protocol-error failure, from the not-configured failure and from
every success result. -/
theorem transcribe_timeout (app_id api_key api_secret : String) (s0 : RecState)
    (audio pcm : List Nat) (conv : List Nat → Except String (List Nat))
    (ch : Channel) (fuel : Nat) (e txt : String) (c d : ℚ)
    (hcred : ¬(api_key = "" ∨ api_secret = "" ∨ app_id = ""))
    (hconv : conv audio = .ok pcm) (hch : ch.fireAt = none) (hfuel : 302 ≤ fuel) :
    transcribe_audio app_id api_key api_secret s0 audio conv ch fuel
        = some (.failure "语音识别超时，请重试", resetState) ∧
    TResult.failure "语音识别超时，请重试" ≠ .failure ("语音识别失败: " ++ e) ∧
    TResult.failure "语音识别超时，请重试"
        ≠ .failure "语音识别服务未配置，请在设置中配置科大讯飞API密钥" ∧
    TResult.failure "语音识别超时，请重试" ≠ .success txt c d := by
  refine ⟨?_, ?_, by decide, by simp⟩
  · unfold transcribe_audio
    rw [if_neg hcred, hconv]
    exact waitLoop_silent ch hch audio.length fuel 0 (by omega) (by omega)
  · intro hEq
    rw [TResult.failure.injEq] at hEq
    exact timeout_msg_ne_wrap e hEq

/-- Witness for `transcribe_timeout` with concrete credentials, audio and
a silent channel, at fuel 302 (30.2 s of polling). -/
theorem transcribe_timeout_w :
    transcribe_audio "a" "k" "s" resetState [7] (fun _ => Except.ok [7])
        ⟨none, resetState⟩ 302
        = some (.failure "语音识别超时，请重试", resetState) ∧
    TResult.failure "语音识别超时，请重试" ≠ .failure ("语音识别失败: " ++ "x") ∧
    TResult.failure "语音识别超时，请重试"
        ≠ .failure "语音识别服务未配置，请在设置中配置科大讯飞API密钥" ∧
    TResult.failure "语音识别超时，请重试" ≠ .success "t" 0 0 :=
  transcribe_timeout "a" "k" "s" resetState [7] [7] (fun _ => Except.ok [7])
    ⟨none, resetState⟩ 302 "x" "t" 0 0 (by decide) rfl rfl (by omega)

/-- A `findSome?` over functions that all return `none` returns `none`. -/
theorem findSome?_none_of_all_none {α β : Type} {l : List α} {f : α → Option β}
    (h : ∀ x ∈ l, f x = none) : l.findSome? f = none := by
  induction l with
  | nil => rfl
  | cons a as ih =>
    rw [List.findSome?_cons, h a (List.mem_cons_self a as)]
    exact ih fun x hx => h x (List.mem_cons_of_mem a hx)

/-- C5: audio shorter than the 44-byte minimal WAV header is declared
invalid by `validate_audio_format`, and — the pydub decoders being external
collaborators that reject inputs shorter than a minimal valid header —
`_convert_audio_to_pcm` fails with the unsupported-format error instead of
producing PCM, so `transcribe_audio` fails before any websocket session is
used (the result does not depend on the channel) and leaves the session
state unchanged. -/
theorem short_audio_rejected (audio : List Nat)
    (fds : List (List Nat → Option (List Nat))) (auto : List Nat → Option (List Nat))
    (app_id api_key api_secret : String) (s0 : RecState) (ch : Channel) (fuel : Nat)
    (h : audio.length < 44)
    (hf : ∀ d ∈ fds, ∀ a : List Nat, a.length < 44 → d a = none)
    (ha : ∀ a : List Nat, a.length < 44 → auto a = none)
    (hcred : ¬(api_key = "" ∨ api_secret = "" ∨ app_id = "")) :
    validate_audio_format audio = false ∧
    convert_audio_to_pcm fds auto audio = .error "音频格式转换失败: 无法识别音频格式" ∧
    transcribe_audio app_id api_key api_secret s0 audio (convert_audio_to_pcm fds auto)
        ch fuel
      = some (.failure ("语音识别失败: " ++ "音频格式转换失败: 无法识别音频格式"), s0) := by
  have hconv : convert_audio_to_pcm fds auto audio
      = .error "音频格式转换失败: 无法识别音频格式" := by
    unfold convert_audio_to_pcm
    rw [findSome?_none_of_all_none (fun d hd => hf d hd audio h), ha audio h]
  refine ⟨?_, hconv, ?_⟩
  · unfold validate_audio_format
    rw [if_pos h]
  · unfold transcribe_audio
    rw [if_neg hcred, hconv]

/-- Witness for `short_audio_rejected` on the empty input with rejecting
decoders and a session state that is visibly left unchanged. -/
theorem short_audio_rejected_w :
    validate_audio_format [] = false ∧
    convert_audio_to_pcm [] (fun _ => none) [] = .error "音频格式转换失败: 无法识别音频格式" ∧
    transcribe_audio "a" "k" "s" ⟨"r", true, some "e"⟩ []
        (convert_audio_to_pcm [] fun _ => none) ⟨none, resetState⟩ 0
      = some (.failure ("语音识别失败: " ++ "音频格式转换失败: 无法识别音频格式"),
          ⟨"r", true, some "e"⟩) :=
  short_audio_rejected [] [] (fun _ => none) "a" "k" "s" ⟨"r", true, some "e"⟩
    ⟨none, resetState⟩ 0 (by decide) (by simp) (fun _ _ => rfl) (by decide)

/-- C6: when any credential is missing, `transcribe_audio` returns the
not-configured failure with the session state unchanged, and the result
does not depend on the audio conversion, the channel or the polling fuel
— no conversion, URL/signature generation or network step is consulted. -/
theorem transcribe_not_configured (app_id api_key api_secret : String) (s0 : RecState)
    (audio : List Nat) (conv cv : List Nat → Except String (List Nat))
    (ch ch' : Channel) (fuel fuel' : Nat)
    (h : api_key = "" ∨ api_secret = "" ∨ app_id = "") :
    transcribe_audio app_id api_key api_secret s0 audio conv ch fuel
        = some (.failure "语音识别服务未配置，请在设置中配置科大讯飞API密钥", s0) ∧
    transcribe_audio app_id api_key api_secret s0 audio conv ch fuel
        = transcribe_audio app_id api_key api_secret s0 audio cv ch' fuel' := by
  unfold transcribe_audio
  rw [if_pos h, if_pos h]
  exact ⟨rfl, rfl⟩

/-- Witness for `transcribe_not_configured` with an empty `app_id` and two
observably different conversion functions, channels and fuels. -/
theorem transcribe_not_configured_w :
    transcribe_audio "" "k" "s" ⟨"r", false, none⟩ [1, 2]
        (fun _ => Except.error "boom") ⟨some 0, ⟨"t", true, none⟩⟩ 5
        = some (.failure "语音识别服务未配置，请在设置中配置科大讯飞API密钥",
            ⟨"r", false, none⟩) ∧
    transcribe_audio "" "k" "s" ⟨"r", false, none⟩ [1, 2]
        (fun _ => Except.error "boom") ⟨some 0, ⟨"t", true, none⟩⟩ 5
        = transcribe_audio "" "k" "s" ⟨"r", false, none⟩ [1, 2]
            (fun _ => Except.ok []) ⟨none, resetState⟩ 999 :=
  transcribe_not_configured "" "k" "s" ⟨"r", false, none⟩ [1, 2]
    (fun _ => Except.error "boom") (fun _ => Except.ok [])
    ⟨some 0, ⟨"t", true, none⟩⟩ ⟨none, resetState⟩ 5 999
    (Or.inr (Or.inr rfl))

/-- Whenever the polling loop returns a success, its confidence and
duration fields are the hard-coded `0.92` and `len/32000`. -/
theorem waitLoop_success_fields (ch : Channel) (len : Nat) :
    ∀ (fuel t : Nat) (txt : String) (conf dur : ℚ) (st : RecState),
      waitLoop ch len t fuel = some (.success txt conf dur, st) →
      conf = mkRat 92 100 ∧ dur = mkRat len 32000 := by
  intro fuel
  induction fuel with
  | zero =>
    intro t txt conf dur st hw
    exact absurd hw (by simp [waitLoop])
  | succ n ih =>
    intro t txt conf dur st hw
    simp only [waitLoop] at hw
    split at hw
    · split at hw
      · exact absurd hw (by simp)
      · exact ih (t + 1) txt conf dur st hw
    · split at hw
      · exact absurd hw (by simp)
      · simp only [Option.some.injEq, Prod.mk.injEq, TResult.success.injEq] at hw
        exact ⟨hw.1.2.1.symm, hw.1.2.2.symm⟩

/-- C10: every success result of `transcribe_audio` carries confidence
exactly `0.92` and duration exactly `len(audio_data)/32000` computed from
the undecoded input length — both independent of the recognized text, the
conversion outcome and the channel behaviour. -/
theorem success_fields_constant (app_id api_key api_secret : String) (s0 : RecState)
    (audio : List Nat) (conv : List Nat → Except String (List Nat)) (ch : Channel)
    (fuel : Nat) (txt : String) (conf dur : ℚ) (st : RecState)
    (h : transcribe_audio app_id api_key api_secret s0 audio conv ch fuel
          = some (.success txt conf dur, st)) :
    conf = 92 / 100 ∧ dur = (audio.length : ℚ) / 32000 := by
  unfold transcribe_audio at h
  split at h
  · exact absurd h (by simp)
  · split at h
    · exact absurd h (by simp)
    · have hw := waitLoop_success_fields ch audio.length fuel 0 txt conf dur st h
      constructor
      · rw [hw.1, Rat.mkRat_eq_div]
        norm_num
      · rw [hw.2, Rat.mkRat_eq_div]
        norm_num

/-- Witness for `success_fields_constant` on a channel that completes at
tick 0 with text `hi`. -/
theorem success_fields_constant_w :
    mkRat 92 100 = 92 / 100 ∧
    mkRat (([7] : List Nat).length) 32000 = ((([7] : List Nat).length : ℚ) / 32000) :=
  success_fields_constant "a" "k" "s" resetState [7] (fun _ => Except.ok [])
    ⟨some 0, ⟨"hi", true, none⟩⟩ 1 "hi" (mkRat 92 100) (mkRat 1 32000)
    ⟨"hi", true, none⟩ (by decide)

end VoiceSpec
